import Mathlib

/-!
Shallow embedding of the article-extractor pipeline (`src/app.py`) and proofs
about its core functions: Python string primitives (`str.strip`, `str.splitlines`,
`str.split`, `str.startswith`), the HTML content extractor built on BeautifulSoup
(`extract_article`), the batch loop, and the spreadsheet exporter
(`create_excel_download`).

Conventions of the embedding:
* Python `str` is Lean `String`; character-level work happens on `List Char`.
* Python dicts (the article records) are association lists `List (String × PyVal)`
  preserving insertion order, with `PyVal` covering the value types that occur
  (`str`, `int`, `None`).
* Network fetching plus HTML parsing (`requests.get` + `BeautifulSoup`) is an
  oracle `String → Except String Soup`: `.error e` is an exception with message
  `str(e)`, `.ok soup` a parsed document tree.
* `datetime.now().strftime(...)` is an ambient parameter `now : String`.
-/

namespace App

/-! ### Python string primitives -/

/-- Line-boundary characters of Python `str.splitlines`. -/
def lineBoundary (c : Char) : Bool :=
  c == '\n' || c == '\r' || c == '\x0b' || c == '\x0c' ||
  c == '\x1c' || c == '\x1d' || c == '\x1e' || c == '\x85' ||
  c == '\u2028' || c == '\u2029'

/-- Characters for which Python `str.isspace()` holds (the set stripped by
`str.strip()` and split on by `str.split()`). -/
def isPySpace (c : Char) : Bool :=
  c == ' ' || c == '\t' || lineBoundary c || c == '\xa0' || c == '\u1680' ||
  (decide (0x2000 ≤ c.toNat) && decide (c.toNat ≤ 0x200a)) ||
  c == '\u202f' || c == '\u205f' || c == '\u3000'

/-- `str.strip()` on the character list: drop whitespace from both ends. -/
def stripCore (l : List Char) : List Char :=
  ((l.dropWhile isPySpace).reverse.dropWhile isPySpace).reverse

/-- `str.strip()`. -/
def stripPy (s : String) : String := ⟨stripCore s.data⟩

/-- Worker for `str.splitlines`: `acc` is the current line, reversed, and
`skipLF` records that the previous character was a `\r` (so that a directly
following `\n` belongs to the same `\r\n` boundary and is skipped). -/
def slGo : Bool → List Char → List Char → List (List Char)
  | _, [], acc => if acc.isEmpty then [] else [acc.reverse]
  | skipLF, c :: rest, acc =>
    if skipLF && c == '\n' then slGo false rest acc
    else if c == '\r' then acc.reverse :: slGo true rest []
    else if lineBoundary c then acc.reverse :: slGo false rest []
    else slGo false rest (c :: acc)

/-- `str.splitlines()`: split on line boundaries, `\r\n` counting once; a
trailing boundary produces no extra empty line. -/
def splitlinesPy (s : String) : List String :=
  (slGo false s.data []).map (fun l => ⟨l⟩)

/-- Worker for no-argument `str.split()`: words are maximal runs of
non-whitespace characters. -/
def swGo : List Char → List Char → List (List Char)
  | [], acc => if acc.isEmpty then [] else [acc.reverse]
  | c :: rest, acc =>
    if isPySpace c then
      if acc.isEmpty then swGo rest [] else acc.reverse :: swGo rest []
    else swGo rest (c :: acc)

/-- `len(s.split())`: the whitespace-delimited token count. -/
def wordCountPy (s : String) : Nat := (swGo s.data []).length

/-- `'\n'.join` on character lists. -/
def joinNL : List (List Char) → List Char
  | [] => []
  | [x] => x
  | x :: xs => x ++ '\n' :: joinNL xs

/-- One step of the comprehension on line 77 of `app.py`: keep `line.strip()`
when it is non-empty (truthy). -/
def keepLine (x : List Char) : Option (List Char) :=
  let s := stripCore x
  if s.isEmpty then none else some s

/-- Lines 77–78 of `app.py` on the character level:
`'\n'.join(line.strip() for line in text.splitlines() if line.strip())`. -/
def cleanCore (l : List Char) : List Char :=
  joinNL ((slGo false l []).filterMap keepLine)

/-- Lines 77–78 of `app.py`: the text-normalization step. -/
def cleanTextPy (s : String) : String := ⟨cleanCore s.data⟩

/-- Worker for single-separator `str.split(sep)`: every separator occurrence
cuts, so `"".split('/') == ['']` and separators at the ends yield empty parts. -/
def soGo (sep : Char) : List Char → List Char → List (List Char)
  | [], acc => [acc.reverse]
  | c :: rest, acc =>
    if c == sep then acc.reverse :: soGo sep rest []
    else soGo sep rest (c :: acc)

/-- `url.split('/')`. -/
def splitSlash (url : String) : List String :=
  (soGo '/' url.data []).map (fun l => ⟨l⟩)

/-- Line 81 of `app.py`:
`url.split('/')[2] if len(url.split('/')) > 2 else 'unknown'`. -/
def domainOf (url : String) : String :=
  let parts := splitSlash url
  if parts.length > 2 then parts.getD 2 "" else "unknown"

/-- `s.startswith(p)` on character lists. -/
def startsWithL : List Char → List Char → Bool
  | [], _ => true
  | _ :: _, [] => false
  | p :: ps, c :: cs => p == c && startsWithL ps cs

/-- Lines 144/212 of `app.py`: `url.startswith(('http://', 'https://'))`. -/
def hasScheme (url : String) : Bool :=
  startsWithL "http://".data url.data || startsWithL "https://".data url.data

/-- `sep.join(parts)` on strings. -/
def joinSep (sep : String) : List String → String
  | [] => ""
  | [x] => x
  | x :: xs => x ++ sep ++ joinSep sep xs

/-! ### HTML document model (the BeautifulSoup tree)

A parsed document is a forest of nodes: `elem` is a `Tag` with its name, its
(possibly multi-valued) `class` attribute and its children; `text` is a
`NavigableString`.  A `Tag` object is always truthy in a boolean context, so
Python's `x or y` over `find` results is `Option.orElse`. -/

inductive Node where
  | elem (tag : String) (classes : List String) (children : List Node)
  | text (s : String)

/-- Line 57 of `app.py`: the element kinds removed before extraction. -/
def removedTags : List String :=
  ["script", "style", "nav", "footer", "header", "aside", "advertisement"]

mutual
/-- Lines 57–58 of `app.py`: `element.decompose()` applied to every element
found by `soup(["script", ...])` — recursive removal of those subtrees. -/
def stripOne : Node → List Node
  | .text s => [.text s]
  | .elem t cls ch => if t ∈ removedTags then [] else [.elem t cls (stripList ch)]

/-- `stripOne` over a forest. -/
def stripList : List Node → List Node
  | [] => []
  | n :: rest => stripOne n ++ stripList rest
end

mutual
/-- `soup.find(...)` on a single subtree: the shallowest, earliest element
satisfying `p` (applied to tag name and class list), in document order. -/
def findPNode (p : String → List String → Bool) : Node → Option Node
  | .text _ => none
  | .elem t cls ch => if p t cls then some (.elem t cls ch) else findPList p ch

/-- `soup.find(...)` on a forest, in document order. -/
def findPList (p : String → List String → Bool) : List Node → Option Node
  | [] => none
  | n :: rest =>
    match findPNode p n with
    | some r => some r
    | none => findPList p rest
end

/-- `soup.find(name)`: first element with the given tag name. -/
def findTag (name : String) (soup : List Node) : Option Node :=
  findPList (fun t _ => t == name) soup

/-- `soup.find('div', class_=c)`: first `div` whose class list contains `c`. -/
def findDivClass (c : String) (soup : List Node) : Option Node :=
  findPList (fun t cls => t == "div" && cls.contains c) soup

mutual
/-- All `NavigableString`s of a subtree, in document order. -/
def stringsNode : Node → List String
  | .text s => [s]
  | .elem _ _ ch => stringsList ch

/-- All `NavigableString`s of a forest, in document order. -/
def stringsList : List Node → List String
  | [] => []
  | n :: rest => stringsNode n ++ stringsList rest
end

/-- `get_text(separator=sep, strip=True)`: strip each string, skip the ones
that are whitespace-only, join with the separator. -/
def getText (sep : String) (ns : List Node) : String :=
  joinSep sep ((stringsList ns).filterMap fun s =>
    let t := stripPy s
    if t = "" then none else some t)

mutual
/-- `Tag.string`: a `NavigableString` is its own string; a tag with exactly
one child defers to that child; any other tag has string `None`. -/
def nodeStringN : Node → Option String
  | .text s => some s
  | .elem _ _ ch => nodeStringL ch

/-- Helper for `Tag.string` on the children list. -/
def nodeStringL : List Node → Option String
  | [c] => nodeStringN c
  | _ => none
end

/-! ### Article records (Python dicts) -/

/-- The Python values that occur in an article record. -/
inductive PyVal where
  | str (s : String)
  | int (n : Nat)
  | none
deriving DecidableEq

/-- A Python dict as an insertion-ordered association list. -/
abbrev PyDict := List (String × PyVal)

/-- `d[k]` as an option (`Option.none` models a `KeyError`). -/
def dictGet (k : String) : PyDict → Option PyVal
  | [] => Option.none
  | (k2, v) :: rest => if k2 = k then some v else dictGet k rest

/-- The ArticleRecord field names, in the insertion order of lines 83–102. -/
def fieldNames : List String :=
  ["title", "url", "domain", "text", "word_count", "date_extracted", "status"]

/-- Lines 94–102 of `app.py`: the record returned from the `except` branch. -/
def failureRecord (url now e : String) : PyDict :=
  [("title", .str "Error"), ("url", .str url), ("domain", .str "error"),
   ("text", .str e), ("word_count", .int 0),
   ("date_extracted", .str now), ("status", .str ("failed: " ++ e))]

/-- Lines 213–218 of `app.py`: the record appended for a URL without scheme. -/
def invalidRecord (url : String) : PyDict :=
  [("url", .str url), ("title", .str "Invalid URL"),
   ("status", .str "failed: Missing http:// or https://"), ("text", .str "")]

/-! ### The Record Builder (`extract_article`, lines 43–102) -/

/-- Lines 60–65 of `app.py`: `title = "No title found"`, overridden by
`soup.title.string` when a `title` tag exists, else by the first `h1`'s
`get_text(strip=True)`. -/
def extractTitle (soup : List Node) : PyVal :=
  match findTag "title" soup with
  | some t =>
    match nodeStringN t with
    | some s => .str s
    | none => .none
  | none =>
    match findTag "h1" soup with
    | some h => .str (getText "" [h])
    | none => .str "No title found"

/-- Line 68 of `app.py`: the `or`-chain over the four preferred regions. -/
def selectRegion (soup : List Node) : Option Node :=
  match findTag "article" soup with
  | some a => some a
  | none =>
    match findTag "main" soup with
    | some m => some m
    | none =>
      match findDivClass "content" soup with
      | some d => some d
      | none => findDivClass "post" soup

/-- Lines 70–74 of `app.py`: text of the selected region, or of the whole
remaining document when no region matched. -/
def extractText (soup : List Node) : String :=
  match selectRegion soup with
  | some body => getText "\n" [body]
  | none => getText "\n" soup

/-- Lines 43–102 of `app.py` (`extract_article`).  `fetch` stands for
`requests.get` + `raise_for_status` + `BeautifulSoup` parsing: `.error e`
is any exception with message `str(e)` (caught by the `except` branch),
`.ok raw` the parsed tree.  `now` is `datetime.now().strftime(...)`. -/
def extract_article (fetch : String → Except String (List Node))
    (now url : String) : PyDict :=
  match fetch url with
  | .error e => failureRecord url now e
  | .ok raw =>
    let soup := stripList raw
    let clean := cleanTextPy (extractText soup)
    [("title", extractTitle soup), ("url", .str url),
     ("domain", .str (domainOf url)), ("text", .str clean),
     ("word_count", .int (wordCountPy clean)),
     ("date_extracted", .str now), ("status", .str "success")]

/-! ### The Batch Orchestrator (lines 197–227) -/

/-- Lines 209–222, one iteration: the produced record, paired with the list of
URLs passed to `extract_article` (which performs exactly one `requests.get`
per call, line 51) — the fetch log of the iteration. -/
def processUrlLog (fetch : String → Except String (List Node))
    (now url : String) : PyDict × List String :=
  if hasScheme url then (extract_article fetch now url, [url])
  else (invalidRecord url, [])

/-- The record appended for one URL of the batch loop. -/
def processUrl (fetch : String → Except String (List Node))
    (now url : String) : PyDict :=
  (processUrlLog fetch now url).1

/-- Line 198 of `app.py`:
`[url.strip() for url in batch_urls.split('\n') if url.strip()]`. -/
def parseUrls (batchText : String) : List String :=
  ((soGo '\n' batchText.data []).map (fun l => (⟨l⟩ : String))).filterMap fun u =>
    let s := stripPy u
    if s = "" then none else some s

/-- Lines 200–224 of `app.py`: the `results` list built by the batch loop.
An empty URL list and a list of more than 20 URLs only produce a warning —
the processing `else` branch never runs and no records are built. -/
def batchRecords (fetch : String → Except String (List Node))
    (now : String) (urls : List String) : List PyDict :=
  if urls.isEmpty then []
  else if urls.length > 20 then []
  else urls.map (processUrl fetch now)

/-- The URLs actually fetched during a batch run. -/
def batchFetchLog (fetch : String → Except String (List Node))
    (now : String) (urls : List String) : List String :=
  if urls.isEmpty then []
  else if urls.length > 20 then []
  else (urls.map (fun u => (processUrlLog fetch now u).2)).flatten

/-- Lines 197–227 end to end: textarea contents to record list. -/
def batchFromText (fetch : String → Except String (List Node))
    (now batchText : String) : List PyDict :=
  batchRecords fetch now (parseUrls batchText)

/-! ### The Tabular Exporter (`create_excel_download`, lines 104–121) -/

/-- `pd.DataFrame(data)` column resolution for a list of dicts: the union of
the keys, ordered by first appearance. -/
def dfColumns (data : List PyDict) : List String :=
  data.foldl (fun cols d => d.foldl (fun cs p => if p.1 ∈ cs then cs else cs ++ [p.1]) cols) []

/-- `df.to_excel(writer, index=False, sheet_name='Extracted Content')`: the
header row (the column names) and one row per record, a missing key rendering
as `Option.none` (pandas `NaN`). -/
def excelSheet (data : List PyDict) : List String × List (List (Option PyVal)) :=
  let cols := dfColumns data
  (cols, data.map fun d => cols.map fun c => dictGet c d)

/-- Lines 104–121 of `app.py` for a list argument: sheet name, header row,
data rows of the single produced sheet. -/
def create_excel_download (data : List PyDict) :
    String × List String × List (List (Option PyVal)) :=
  ("Extracted Content", excelSheet data)

/-! ### Concrete fetch outcomes and documents used in witnesses -/

/-- A fetch whose request always raises (for example a connection error). -/
def stubFetch : String → Except String (List Node) :=
  fun _ => Except.error "connection error"

/-- A fetch that always succeeds with the given parsed document. -/
def pageFetch (doc : List Node) : String → Except String (List Node) :=
  fun _ => Except.ok doc

/-- A page whose `title` element is present but empty, with an `h1` below. -/
def emptyTitleDoc : List Node :=
  [Node.elem "html" []
    [Node.elem "head" [] [Node.elem "title" [] []],
     Node.elem "body" [] [Node.elem "h1" [] [Node.text "Hi"]]]]

/-- A page whose only `content`-classed element is a `section`, not a `div`,
with no `article`, `main`, `div.content` or `div.post`. -/
def classContentDoc : List Node :=
  [Node.elem "body" []
    [Node.text "AAA", Node.elem "section" ["content"] [Node.text "BBB"]]]

/-- Following C8's wording, "the first element tagged with class `c`"
regardless of the element's tag: the claimed selector, to be compared with
the implemented `findDivClass`. -/
def findClassAny (c : String) (soup : List Node) : Option Node :=
  findPList (fun _ cls => cls.contains c) soup

/-! ### Supporting lemmas -/

/-- The `url` field of every record built by the batch loop is the input URL. -/
theorem dictGet_url_processUrl (fetch : String → Except String (List Node))
    (now u : String) : dictGet "url" (processUrl fetch now u) = some (.str u) := by
  unfold processUrl processUrlLog
  by_cases h : hasScheme u
  · simp only [h, if_true]
    cases hf : fetch u <;>
      simp [extract_article, hf, failureRecord, dictGet]
  · simp only [h, if_false]
    simp [invalidRecord, dictGet]

/-- Every URL in the batch fetch log passed the scheme check. -/
theorem hasScheme_of_mem_batchFetchLog
    (fetch : String → Except String (List Node)) (now : String)
    (urls : List String) (v : String) (hv : v ∈ batchFetchLog fetch now urls) :
    hasScheme v = true := by
  unfold batchFetchLog at hv
  split at hv
  · simp at hv
  · split at hv
    · simp at hv
    · simp only [List.mem_flatten, List.mem_map] at hv
      obtain ⟨l, ⟨u, _, rfl⟩, hvl⟩ := hv
      unfold processUrlLog at hvl
      by_cases h : hasScheme u
      · simp only [h, if_true, List.mem_singleton] at hvl
        exact hvl ▸ h
      · simp [h] at hvl

/-- Members of `dropWhile` are members of the original list. -/
theorem mem_of_dropWhile {q : Char → Bool} {c : Char} :
    ∀ (l : List Char), c ∈ l.dropWhile q → c ∈ l := by
  intro l h
  induction l with
  | nil => simp at h
  | cons a t ih =>
    rw [List.dropWhile_cons] at h
    by_cases hq : q a = true
    · rw [if_pos hq] at h
      exact List.mem_cons_of_mem a (ih h)
    · rw [if_neg hq] at h
      exact h

/-- The first element surviving `dropWhile` fails the predicate. -/
theorem dropWhile_head_false {q : Char → Bool} :
    ∀ (l : List Char) (c : Char) (t : List Char),
      l.dropWhile q = c :: t → q c = false := by
  intro l c t h
  induction l with
  | nil => simp at h
  | cons a l2 ih =>
    rw [List.dropWhile_cons] at h
    by_cases ha : q a = true
    · rw [if_pos ha] at h
      exact ih h
    · rw [if_neg ha] at h
      have hac : a = c := (List.cons.inj h).1
      subst hac
      cases hqa : q a with
      | false => rfl
      | true => exact absurd hqa ha

/-- A non-empty `dropWhile` result keeps the last element of the list. -/
theorem dropWhile_getLast? {q : Char → Bool} :
    ∀ (l : List Char), l.dropWhile q ≠ [] →
      (l.dropWhile q).getLast? = l.getLast? := by
  intro l h
  induction l with
  | nil => simp at h
  | cons a t ih =>
    rw [List.dropWhile_cons] at h ⊢
    by_cases ha : q a = true
    · rw [if_pos ha] at h ⊢
      cases t with
      | nil => simp at h
      | cons b t2 =>
        rw [List.getLast?_cons_cons]
        exact ih h
    · rw [if_neg ha]

/-- `dropWhile` is the identity when the head already fails the predicate. -/
theorem dropWhile_eq_self_of_head {q : Char → Bool} (l : List Char)
    (h : ∀ c t, l = c :: t → q c = false) : l.dropWhile q = l := by
  cases l with
  | nil => rfl
  | cons a t =>
    rw [List.dropWhile_cons, if_neg]
    simp [h a t rfl]

/-- Members of `stripCore` are members of the original character list. -/
theorem mem_of_stripCore {c : Char} (y : List Char) (h : c ∈ stripCore y) :
    c ∈ y := by
  unfold stripCore at h
  rw [List.mem_reverse] at h
  have h2 := mem_of_dropWhile _ h
  rw [List.mem_reverse] at h2
  exact mem_of_dropWhile _ h2

/-- A non-empty `stripCore` result starts with a non-whitespace character. -/
theorem stripCore_head_false (y : List Char) (c : Char) (t : List Char)
    (h : stripCore y = c :: t) : isPySpace c = false := by
  unfold stripCore at h
  have hne : (y.dropWhile isPySpace).reverse.dropWhile isPySpace ≠ [] := by
    intro h0
    rw [h0] at h
    simp at h
  have hh : ((y.dropWhile isPySpace).reverse.dropWhile isPySpace).reverse.head? =
      some c := by rw [h]; rfl
  rw [List.head?_reverse] at hh
  rw [dropWhile_getLast? _ hne, List.getLast?_reverse] at hh
  rcases hy : y.dropWhile isPySpace with _ | ⟨c0, t0⟩
  · rw [hy] at hne
    simp at hne
  · rw [hy] at hh
    simp only [List.head?_cons, Option.some.injEq] at hh
    exact hh ▸ dropWhile_head_false y c0 t0 hy

/-- A non-empty `stripCore` result ends with a non-whitespace character. -/
theorem stripCore_last_false (y : List Char) (d : Char)
    (h : (stripCore y).getLast? = some d) : isPySpace d = false := by
  unfold stripCore at h
  rw [List.getLast?_reverse] at h
  rcases hr : (y.dropWhile isPySpace).reverse.dropWhile isPySpace with _ | ⟨c0, t0⟩
  · rw [hr] at h
    simp at h
  · rw [hr] at h
    simp only [List.head?_cons, Option.some.injEq] at h
    exact h ▸ dropWhile_head_false _ c0 t0 hr

/-- `stripCore` fixes any list whose two ends fail `isPySpace`. -/
theorem stripCore_eq_self (z : List Char)
    (hh : ∀ c t, z = c :: t → isPySpace c = false)
    (hl : ∀ d, z.getLast? = some d → isPySpace d = false) :
    stripCore z = z := by
  unfold stripCore
  rw [dropWhile_eq_self_of_head z hh]
  have h2 : z.reverse.dropWhile isPySpace = z.reverse := by
    apply dropWhile_eq_self_of_head
    intro c t hct
    have hc : z.reverse.head? = some c := by rw [hct]; rfl
    rw [List.head?_reverse] at hc
    exact hl c hc
  rw [h2, List.reverse_reverse]

/-- Python `strip` is idempotent. -/
theorem stripCore_idem (y : List Char) : stripCore (stripCore y) = stripCore y := by
  apply stripCore_eq_self
  · intro c t h
    exact stripCore_head_false y c t h
  · intro d h
    exact stripCore_last_false y d h

/-- Every character of every line produced by `slGo` comes from the input or
the accumulator, and is never a line boundary. -/
theorem slGo_lines_chars :
    ∀ (l : List Char) (sk : Bool) (acc : List Char),
      (∀ c ∈ acc, lineBoundary c = false) →
      ∀ x ∈ slGo sk l acc, ∀ c ∈ x, lineBoundary c = false := by
  intro l
  induction l with
  | nil =>
    intro sk acc hacc x hx c hc
    simp only [slGo] at hx
    split at hx
    · simp at hx
    · rw [List.mem_singleton] at hx
      subst hx
      exact hacc c (List.mem_reverse.mp hc)
  | cons a rest ih =>
    intro sk acc hacc x hx c hc
    simp only [slGo] at hx
    split at hx
    · exact ih false acc hacc x hx c hc
    · split at hx
      · rcases List.mem_cons.mp hx with rfl | hx2
        · exact hacc c (List.mem_reverse.mp hc)
        · exact ih true [] (by simp) x hx2 c hc
      · rename_i hnb
        split at hx
        · rcases List.mem_cons.mp hx with rfl | hx2
          · exact hacc c (List.mem_reverse.mp hc)
          · exact ih false [] (by simp) x hx2 c hc
        · rename_i hb
          refine ih false (a :: acc) ?_ x hx c hc
          intro c2 hc2
          rcases List.mem_cons.mp hc2 with rfl | hc3
          · cases hba : lineBoundary c2 with
            | false => rfl
            | true => exact absurd hba hb
          · exact hacc c2 hc3

/-- Scanning a boundary-free chunk only moves it into the accumulator. -/
theorem slGo_append (x : List Char) (l2 acc : List Char)
    (hx : ∀ c ∈ x, lineBoundary c = false) :
    slGo false (x ++ l2) acc = slGo false l2 (x.reverse ++ acc) := by
  induction x generalizing acc with
  | nil => simp
  | cons a x2 ih =>
    have ha : lineBoundary a = false := hx a (by simp)
    have har : (a == '\r') = false := by
      cases hae : a == '\r' with
      | false => rfl
      | true =>
        have : a = '\r' := by exact beq_iff_eq.mp hae
        subst this
        simp [lineBoundary] at ha
    simp only [List.cons_append, slGo, Bool.false_and, Bool.false_eq_true,
      if_false, har, ha]
    show slGo false (x2 ++ l2) (a :: acc) = _
    rw [ih (a :: acc) fun c hc => hx c (by simp [hc])]
    simp

/-- Splitting the `'\n'`-join of non-empty boundary-free lines restores the
lines. -/
theorem slGo_joinNL :
    ∀ (L : List (List Char)),
      (∀ x ∈ L, x ≠ [] ∧ ∀ c ∈ x, lineBoundary c = false) →
      slGo false (joinNL L) [] = L := by
  intro L
  induction L with
  | nil => intro _; rfl
  | cons x L2 ih =>
    intro h
    obtain ⟨hne, hnb⟩ := h x (by simp)
    cases L2 with
    | nil =>
      show slGo false (joinNL [x]) [] = [x]
      rw [show joinNL [x] = x from rfl, show (x : List Char) = x ++ [] by simp,
        slGo_append x [] [] hnb]
      simp only [slGo, List.append_nil]
      rw [if_neg (by simpa using hne)]
      simp
    | cons y L3 =>
      show slGo false (joinNL (x :: y :: L3)) [] = x :: y :: L3
      rw [show joinNL (x :: y :: L3) = x ++ '\n' :: joinNL (y :: L3) from rfl,
        slGo_append x _ [] hnb]
      simp only [slGo, Bool.false_and, Bool.false_eq_true, if_false]
      rw [if_neg (by decide), if_pos (by decide), List.append_nil,
        List.reverse_reverse]
      exact congrArg (x :: ·) (ih fun z hz => h z (by simp [hz]))

/-- `filterMap` with a pointwise-identity function is the identity. -/
theorem filterMap_id_of_mem {α : Type} (f : α → Option α) :
    ∀ (L : List α), (∀ x ∈ L, f x = some x) → L.filterMap f = L := by
  intro L h
  induction L with
  | nil => rfl
  | cons a t ih =>
    rw [List.filterMap_cons, h a (by simp)]
    rw [ih fun x hx => h x (by simp [hx])]

/-- Every line kept by the normalization is non-empty, boundary-free and a
`stripCore` fixed point. -/
theorem cleanCore_line_props (l : List Char) (x : List Char)
    (hx : x ∈ (slGo false l []).filterMap keepLine) :
    x ≠ [] ∧ (∀ c ∈ x, lineBoundary c = false) ∧ stripCore x = x := by
  rw [List.mem_filterMap] at hx
  obtain ⟨y, hy, hfy⟩ := hx
  unfold keepLine at hfy
  by_cases hse : (stripCore y).isEmpty = true
  · rw [if_pos hse] at hfy
    simp at hfy
  · rw [if_neg hse] at hfy
    obtain rfl := Option.some.inj hfy
    refine ⟨by simpa [List.isEmpty_iff] using hse, ?_, stripCore_idem y⟩
    intro c hc
    exact slGo_lines_chars l false [] (by simp) y hy c (mem_of_stripCore y hc)

/-- C10: the text normalization of lines 77–78 is idempotent — normalizing
already-normalized text changes nothing, since normalized text has no blank
lines and no leading or trailing whitespace on any line. -/
theorem C10_normalization_idempotent (t : String) :
    cleanTextPy (cleanTextPy t) = cleanTextPy t := by
  suffices h : cleanCore (cleanCore t.data) = cleanCore t.data by
    unfold cleanTextPy
    exact congrArg String.mk h
  show joinNL ((slGo false (cleanCore t.data) []).filterMap keepLine) = _
  rw [show cleanCore t.data = joinNL ((slGo false t.data []).filterMap keepLine)
    from rfl]
  rw [slGo_joinNL ((slGo false t.data []).filterMap keepLine) ?lines]
  case lines =>
    intro x hx
    have h := cleanCore_line_props t.data x hx
    exact ⟨h.1, h.2.1⟩
  rw [filterMap_id_of_mem keepLine _ ?fix]
  case fix =>
    intro x hx
    have h := cleanCore_line_props t.data x hx
    unfold keepLine
    rw [h.2.2, if_neg (by simpa [List.isEmpty_iff] using h.1)]

/-- A dict whose key sequence is `fieldNames` is exactly a seven-entry list
with those keys in order. -/
theorem record_shape (d : PyDict) (h : d.map Prod.fst = fieldNames) :
    ∃ v1 v2 v3 v4 v5 v6 v7, d =
      [("title", v1), ("url", v2), ("domain", v3), ("text", v4),
       ("word_count", v5), ("date_extracted", v6), ("status", v7)] := by
  rcases d with _ | ⟨⟨k1, v1⟩, _ | ⟨⟨k2, v2⟩, _ | ⟨⟨k3, v3⟩, _ | ⟨⟨k4, v4⟩,
    _ | ⟨⟨k5, v5⟩, _ | ⟨⟨k6, v6⟩, _ | ⟨⟨k7, v7⟩, _ | ⟨⟨k8, v8⟩, d⟩⟩⟩⟩⟩⟩⟩⟩ <;>
      simp [fieldNames] at h
  obtain ⟨h1, h2, h3, h4, h5, h6, h7⟩ := h
  subst h1 h2 h3 h4 h5 h6 h7
  exact ⟨v1, v2, v3, v4, v5, v6, v7, rfl⟩

/-- Reading a full record along the field-name columns reproduces the
record's values in order. -/
theorem row_of_record (d : PyDict) (h : d.map Prod.fst = fieldNames) :
    fieldNames.map (fun c => dictGet c d) = d.map (fun p => some p.2) := by
  obtain ⟨v1, v2, v3, v4, v5, v6, v7, rfl⟩ := record_shape d h
  rfl

/-- Accumulating the columns of a full record into an empty column list
yields the field names. -/
theorem cols_of_record (d : PyDict) (h : d.map Prod.fst = fieldNames) :
    d.foldl (fun cs p => if p.1 ∈ cs then cs else cs ++ [p.1]) [] = fieldNames := by
  obtain ⟨v1, v2, v3, v4, v5, v6, v7, rfl⟩ := record_shape d h
  rfl

/-- A full record adds no new column to the field-name column list. -/
theorem cols_of_record_full (d : PyDict) (h : d.map Prod.fst = fieldNames) :
    d.foldl (fun cs p => if p.1 ∈ cs then cs else cs ++ [p.1]) fieldNames =
      fieldNames := by
  obtain ⟨v1, v2, v3, v4, v5, v6, v7, rfl⟩ := record_shape d h
  rfl

/-- Folding further full records over the field-name columns is stable. -/
theorem foldl_cols_fixed (data : List PyDict)
    (h : ∀ d ∈ data, d.map Prod.fst = fieldNames) :
    data.foldl
        (fun cols d => d.foldl (fun cs p => if p.1 ∈ cs then cs else cs ++ [p.1]) cols)
        fieldNames = fieldNames := by
  induction data with
  | nil => rfl
  | cons d rest ih =>
    rw [List.foldl_cons, cols_of_record_full d (h d (by simp))]
    exact ih fun d2 hd2 => h d2 (by simp [hd2])

/-- The DataFrame of a non-empty list of full records has exactly the seven
field names as columns, in order. -/
theorem dfColumns_records (data : List PyDict) (h1 : data ≠ [])
    (h2 : ∀ d ∈ data, d.map Prod.fst = fieldNames) :
    dfColumns data = fieldNames := by
  unfold dfColumns
  cases data with
  | nil => exact absurd rfl h1
  | cons d0 rest =>
    rw [List.foldl_cons, cols_of_record d0 (h2 d0 (by simp))]
    exact foldl_cols_fixed rest fun d hd => h2 d (by simp [hd])

/-! ### Claims -/

/-- C1, counterexample: the claim (and spec) says the record built for
`"https://example.com"` carries domain `"unknown"`; the code splits the URL
on `/` into the 3 segments `["https:", "", "example.com"]`, so `len > 2`
holds and the domain field is `"example.com"`, not `"unknown"`. -/
theorem C1_counterexample :
    dictGet "domain"
        (extract_article (pageFetch []) "2026-01-01 00:00:00" "https://example.com") ≠
      some (PyVal.str "unknown") ∧
    dictGet "domain"
        (extract_article (pageFetch []) "2026-01-01 00:00:00" "https://example.com") =
      some (PyVal.str "example.com") := by decide

/-- C1, amended: `"https://www.example.com/path"` yields domain
`"www.example.com"`; `"https://example.com"` yields domain `"example.com"`
(its split has exactly 3 `/`-segments because of the `//`); `"unknown"` is
produced only for URLs with fewer than 3 segments, such as a scheme-less
`"example.com"`. -/
theorem C1_domain_boundary :
    dictGet "domain"
        (extract_article (pageFetch []) "2026-01-01 00:00:00" "https://www.example.com/path") =
      some (PyVal.str "www.example.com") ∧
    dictGet "domain"
        (extract_article (pageFetch []) "2026-01-01 00:00:00" "https://example.com") =
      some (PyVal.str "example.com") ∧
    splitSlash "https://example.com" = ["https:", "", "example.com"] ∧
    splitSlash "example.com" = ["example.com"] ∧
    domainOf "example.com" = "unknown" := by decide

/-- C2, counterexample: a batch of 21 URLs is not processed at all — the
`elif len(urls) > 20` branch only warns and never reaches the processing
loop, so zero records are produced instead of 21. -/
theorem C2_counterexample :
    (batchRecords stubFetch "2026-01-01 00:00:00"
        (List.replicate 21 "https://a.com/x")).length = 0 ∧
    (List.replicate 21 "https://a.com/x").length = 21 := by decide

/-- C2, amended: for a non-empty batch of at most 20 URLs, the loop produces
exactly one record per input URL, in input order, each carrying its URL in
the `url` field; batches of more than 20 URLs (and empty batches) are
rejected with a warning and produce no records. -/
theorem C2_batch_one_record_per_url (fetch : String → Except String (List Node))
    (now : String) (urls : List String) (h1 : urls ≠ []) (h2 : urls.length ≤ 20) :
    batchRecords fetch now urls = urls.map (processUrl fetch now) ∧
    (batchRecords fetch now urls).length = urls.length ∧
    (batchRecords fetch now urls).map (dictGet "url") =
      urls.map (fun u => some (PyVal.str u)) := by
  have he : urls.isEmpty = false := by
    cases urls with
    | nil => exact absurd rfl h1
    | cons a l => rfl
  have hl : ¬ urls.length > 20 := by omega
  refine ⟨by simp [batchRecords, he, hl], by simp [batchRecords, he, hl], ?_⟩
  simp only [batchRecords, he, Bool.false_eq_true, if_false, hl, List.map_map]
  exact List.map_congr_left fun u _ => dictGet_url_processUrl fetch now u

/-- C2, witness for the amended theorem at a concrete two-URL batch. -/
theorem C2_batch_one_record_per_url_witness :
    batchRecords stubFetch "2026-01-01 00:00:00" ["example.com", "https://a.com/x"] =
      ["example.com", "https://a.com/x"].map
        (processUrl stubFetch "2026-01-01 00:00:00") ∧
    (batchRecords stubFetch "2026-01-01 00:00:00"
        ["example.com", "https://a.com/x"]).map (dictGet "url") =
      [some (PyVal.str "example.com"), some (PyVal.str "https://a.com/x")] := by
  have h := C2_batch_one_record_per_url stubFetch "2026-01-01 00:00:00"
    ["example.com", "https://a.com/x"] (by decide) (by decide)
  exact ⟨h.1, h.2.2⟩

/-- C3, code bug: the record appended for a scheme-less URL in the batch loop
has only the four fields `url`, `title`, `status`, `text` — `domain`,
`word_count` and `date_extracted` are missing (lines 213–218), even though the
same file later reads `r['word_count']` of every record (line 241). -/
theorem C3_missing_fields :
    (batchRecords stubFetch "2026-01-01 00:00:00" ["example.com"]).map
        (fun r => r.map Prod.fst) =
      [["url", "title", "status", "text"]] ∧
    dictGet "word_count" (invalidRecord "example.com") = Option.none ∧
    dictGet "domain" (invalidRecord "example.com") = Option.none ∧
    dictGet "date_extracted" (invalidRecord "example.com") = Option.none := by decide

/-- C4, counterexample: the pre-validation failure record has an empty `text`
field — the missing-scheme description appears only in `status`, not
verbatim in `text`, so "for every failure record the error's textual
description appears verbatim in the record's text field" fails. -/
theorem C4_counterexample :
    dictGet "text" (invalidRecord "example.com") = some (PyVal.str "") ∧
    dictGet "status" (invalidRecord "example.com") =
      some (PyVal.str "failed: Missing http:// or https://") ∧
    ¬ ∃ p q : String, "" = p ++ "Missing http:// or https://" ++ q := by
  refine ⟨by decide, by decide, ?_⟩
  rintro ⟨p, q, h⟩
  have hlen := congrArg String.length h
  simp only [String.length_append] at hlen
  have : ("" : String).length = 0 := rfl
  have : ("Missing http:// or https://" : String).length = 27 := rfl
  omega

/-- C4, amended: on the Record Builder failure path the record carries the
error description verbatim in `text`, with `title = "Error"`,
`domain = "error"`, `word_count = 0` and `status = "failed: " ++ description`;
on the batch pre-validation path the failure marker
`"failed: Missing http:// or https://"` appears in `status` only, while
`text` is the empty string. -/
theorem C4_failure_record_fields :
    (∀ (fetch : String → Except String (List Node)) (now url e : String),
      fetch url = Except.error e →
        extract_article fetch now url = failureRecord url now e ∧
        dictGet "text" (failureRecord url now e) = some (PyVal.str e) ∧
        dictGet "title" (failureRecord url now e) = some (PyVal.str "Error") ∧
        dictGet "domain" (failureRecord url now e) = some (PyVal.str "error") ∧
        dictGet "word_count" (failureRecord url now e) = some (PyVal.int 0) ∧
        dictGet "status" (failureRecord url now e) =
          some (PyVal.str ("failed: " ++ e))) ∧
    (∀ url : String,
      dictGet "text" (invalidRecord url) = some (PyVal.str "") ∧
      dictGet "title" (invalidRecord url) = some (PyVal.str "Invalid URL") ∧
      dictGet "status" (invalidRecord url) =
        some (PyVal.str "failed: Missing http:// or https://")) := by
  constructor
  · intro fetch now url e h
    refine ⟨by simp [extract_article, h], ?_, ?_, ?_, ?_, ?_⟩ <;>
      simp [failureRecord, dictGet]
  · intro url
    refine ⟨?_, ?_, ?_⟩ <;> simp [invalidRecord, dictGet]

/-- C4, witness for the amended theorem: a concrete failing fetch. -/
theorem C4_failure_record_fields_witness :
    extract_article stubFetch "2026-01-01 00:00:00" "https://a.com/x" =
      failureRecord "https://a.com/x" "2026-01-01 00:00:00" "connection error" ∧
    dictGet "text"
        (failureRecord "https://a.com/x" "2026-01-01 00:00:00" "connection error") =
      some (PyVal.str "connection error") := by
  have h := C4_failure_record_fields.1 stubFetch "2026-01-01 00:00:00"
    "https://a.com/x" "connection error" rfl
  exact ⟨h.1, h.2.1⟩

/-- C5: a URL without an `http://`/`https://` prefix short-circuits to the
invalid-URL record: the iteration's fetch log is empty (`extract_article`,
which performs the one `requests.get`, is never invoked), the record's title
is `"Invalid URL"` and its status is the missing-scheme failure marker; such
a URL never appears in the fetch log of any batch. -/
theorem C5_missing_scheme_not_fetched (fetch : String → Except String (List Node))
    (now url : String) (h : hasScheme url = false) :
    processUrlLog fetch now url = (invalidRecord url, []) ∧
    dictGet "title" (invalidRecord url) = some (PyVal.str "Invalid URL") ∧
    dictGet "status" (invalidRecord url) =
      some (PyVal.str "failed: Missing http:// or https://") ∧
    ∀ urls, url ∉ batchFetchLog fetch now urls := by
  refine ⟨by simp [processUrlLog, h], by simp [invalidRecord, dictGet],
    by simp [invalidRecord, dictGet], ?_⟩
  intro urls hmem
  have hs := hasScheme_of_mem_batchFetchLog fetch now urls url hmem
  rw [h] at hs
  exact Bool.false_ne_true hs

/-- C5, witness at the concrete scheme-less URL `"example.com"`. -/
theorem C5_missing_scheme_not_fetched_witness :
    hasScheme "example.com" = false ∧
    processUrlLog stubFetch "2026-01-01 00:00:00" "example.com" =
      (invalidRecord "example.com", []) := by
  exact ⟨by decide,
    (C5_missing_scheme_not_fetched stubFetch "2026-01-01 00:00:00" "example.com"
      (by decide)).1⟩

/-- C6: `extract_article` is total — for every fetch outcome it returns a
record with exactly the seven ArticleRecord fields in order; the status is
either the success marker, or the fetch raised and the whole record is the
failure record for that error (the `except` branch), so no failure
propagates to the caller. -/
theorem C6_record_builder_absorbs_failures
    (fetch : String → Except String (List Node)) (now url : String) :
    (extract_article fetch now url).map Prod.fst = fieldNames ∧
    (dictGet "status" (extract_article fetch now url) = some (PyVal.str "success") ∨
     ∃ e, fetch url = Except.error e ∧
       extract_article fetch now url = failureRecord url now e) := by
  cases h : fetch url with
  | error e =>
    refine ⟨?_, Or.inr ⟨e, rfl, by simp [extract_article, h]⟩⟩
    simp [extract_article, h, failureRecord, fieldNames]
  | ok raw =>
    refine ⟨?_, Or.inl ?_⟩ <;> simp [extract_article, h, fieldNames, dictGet]

/-- C9, code bug evaluated at the failing input: a page whose `title` element
is present but empty makes `soup.title` truthy while `soup.title.string` is
`None`, so the success record's title field is Python `None`, not a string —
and the `h1` fallback of the claimed priority order is skipped. -/
theorem C9_empty_title_yields_none :
    extract_article (pageFetch emptyTitleDoc) "2026-01-01 00:00:00" "https://ex.com/a" =
      [("title", PyVal.none), ("url", PyVal.str "https://ex.com/a"),
       ("domain", PyVal.str "ex.com"), ("text", PyVal.str "Hi"),
       ("word_count", PyVal.int 1),
       ("date_extracted", PyVal.str "2026-01-01 00:00:00"),
       ("status", PyVal.str "success")] := by decide

/-- C8, counterexample: the code looks for class `content`/`post` only on
`div` elements (`soup.find('div', class_='content')`), not on arbitrary
elements as claimed: on a page whose only `content`-classed element is a
`section`, an element tagged with class `content` exists (so the claim picks
it, extracting `"BBB"`), but the code selects no region and falls back to the
whole-body text `"AAA\nBBB"`. -/
theorem C8_counterexample :
    findClassAny "content" classContentDoc =
      some (Node.elem "section" ["content"] [Node.text "BBB"]) ∧
    selectRegion classContentDoc = none ∧
    extractText classContentDoc = "AAA\nBBB" ∧
    getText "\n" [Node.elem "section" ["content"] [Node.text "BBB"]] = "BBB" ∧
    "AAA\nBBB" ≠ "BBB" :=
  ⟨rfl, rfl, by decide, by decide, by decide⟩

/-- C8, amended: the content region is resolved in priority order — first
`<article>`, else first `<main>`, else first `<div>` with class `content`,
else first `<div>` with class `post` — and when none of the four preferred
regions exists the extraction falls back to the text of the entire remaining
document instead of failing. -/
theorem C8_region_cascade (soup : List Node) :
    (∀ a, findTag "article" soup = some a → selectRegion soup = some a) ∧
    (findTag "article" soup = none →
      ∀ m, findTag "main" soup = some m → selectRegion soup = some m) ∧
    (findTag "article" soup = none → findTag "main" soup = none →
      ∀ d, findDivClass "content" soup = some d → selectRegion soup = some d) ∧
    (findTag "article" soup = none → findTag "main" soup = none →
      findDivClass "content" soup = none →
      ∀ d, findDivClass "post" soup = some d → selectRegion soup = some d) ∧
    (findTag "article" soup = none → findTag "main" soup = none →
      findDivClass "content" soup = none → findDivClass "post" soup = none →
      selectRegion soup = none ∧ extractText soup = getText "\n" soup) := by
  refine ⟨?_, ?_, ?_, ?_, ?_⟩
  · intro a ha; simp [selectRegion, ha]
  · intro h1 m hm; simp [selectRegion, h1, hm]
  · intro h1 h2 d hd; simp [selectRegion, h1, h2, hd]
  · intro h1 h2 h3 d hd; simp [selectRegion, h1, h2, h3, hd]
  · intro h1 h2 h3 h4
    exact ⟨by simp [selectRegion, h1, h2, h3, h4],
      by simp [extractText, selectRegion, h1, h2, h3, h4]⟩

/-- C8, witness: the whole-body fallback fires on `classContentDoc`, which
has no `article`, `main`, `div.content` or `div.post`. -/
theorem C8_region_cascade_witness :
    selectRegion classContentDoc = none ∧
    extractText classContentDoc = getText "\n" classContentDoc :=
  (C8_region_cascade classContentDoc).2.2.2.2 rfl rfl rfl rfl

/-- C7: exporting any non-empty sequence of full records gives one sheet
named `Extracted Content` whose header row is exactly the seven field names
in record order and whose data rows are the records' values, one row per
record, in input order. -/
theorem C7_export_shape (data : List PyDict) (h1 : data ≠ [])
    (h2 : ∀ d ∈ data, d.map Prod.fst = fieldNames) :
    (create_excel_download data).1 = "Extracted Content" ∧
    (create_excel_download data).2.1 = fieldNames ∧
    (create_excel_download data).2.2 =
      data.map (fun d => d.map (fun p => some p.2)) ∧
    (create_excel_download data).2.2.length = data.length := by
  have hcols : dfColumns data = fieldNames := dfColumns_records data h1 h2
  refine ⟨rfl, ?_, ?_, ?_⟩
  · simp [create_excel_download, excelSheet, hcols]
  · simp only [create_excel_download, excelSheet]
    rw [hcols]
    exact List.map_congr_left fun d hd => row_of_record d (h2 d hd)
  · simp [create_excel_download, excelSheet]

/-- C7, witness: the one-record export of a concrete failure record. -/
theorem C7_export_shape_witness :
    (create_excel_download
        [failureRecord "https://a.com/x" "2026-01-01 00:00:00" "connection error"]).2.1 =
      fieldNames ∧
    (create_excel_download
        [failureRecord "https://a.com/x" "2026-01-01 00:00:00" "connection error"]).2.2 =
      [failureRecord "https://a.com/x" "2026-01-01 00:00:00" "connection error"].map
        (fun d => d.map (fun p => some p.2)) := by
  have h := C7_export_shape
    [failureRecord "https://a.com/x" "2026-01-01 00:00:00" "connection error"]
    (by decide) (by intro d hd; rw [List.mem_singleton] at hd; subst hd; decide)
  exact ⟨h.2.1, h.2.2.1⟩

end App
